import Mathlib

/-!
Verification of the row-merging core of `rowmerge.py`.

The development shallowly embeds the two core functions of the repository:

* `discover_mappings` (rowmerge.py, lines 14-44): pure processing of the
  list of column names, finding (referencing-column, index-column) pairs.
* `do_joins` / `merge_rows` (rowmerge.py, lines 47-114): the sequence of
  conflict-checked outer joins over a table.

Modelling conventions:

* Strings are handled through their character lists (`String.data`), so that
  Python's code-point based `rfind` indices translate directly.
* Python's `str.strip` is modelled by `pyStrip` (leading/trailing whitespace
  removal); Lean's `Char.isWhitespace` covers the ASCII whitespace Python
  strips.  The regex word class `\w` is modelled by ASCII alphanumerics plus
  underscore (`isWordChar`); Python's `\w` additionally accepts non-ASCII
  word characters, a difference none of the verified claims depends on.
* A pandas cell is `Option String` (`none` is NaN / the missing marker); a
  DataFrame is a `Table`: ordered column names plus row-major cells.
* pandas operations that raise `KeyError` (column lookups of absent labels,
  `pd.merge` with an absent `left_on`/`right_on` label) are modelled with
  `Except String`.  Column lookup takes the first occurrence of a label;
  pandas tables with duplicate labels behave differently in some of those
  paths, but `pandas.read_csv` never produces duplicate labels.
* Logging (`logger.warning` / `logger.info`) is modelled by a list of
  structured `LogMsg` values returned alongside the table.  The textual
  formatting of messages and the iteration order of Python `set`s (which
  only affects message ordering inside one warning and the order in which
  all-missing columns are re-inserted before the final reorder) are not
  modelled; a deterministic list order is used instead.
* Row order produced by `pd.merge(..., how='outer')` is modelled as: rows of
  the left frame in order (each expanded by its matches, or padded when
  unmatched), followed by unmatched right-frame rows in order.  No claim
  depends on row order.
-/

/-- One character of the regex class `\w`, restricted to ASCII:
letters, digits and underscore. -/
def isWordChar (c : Char) : Bool := c.isAlphanum || c == '_'

/-- Python `str.strip()`: remove leading and trailing whitespace. -/
def pyStrip (cs : List Char) : List Char :=
  ((cs.dropWhile Char.isWhitespace).reverse.dropWhile Char.isWhitespace).reverse

/-- Whether a character list matches the regex `\w+\.@?id$` anchored at the
start (Python `re.match`): a non-empty run of word characters, a literal
dot, then `id` or `@id`, end of string.  Since `.` is not a word character,
the `\w+` of any match is exactly the maximal leading word-character run. -/
def isIndexChars (cs : List Char) : Bool :=
  let w := cs.takeWhile isWordChar
  let rest := cs.drop w.length
  !w.isEmpty && (rest == ['.', 'i', 'd'] || rest == ['.', '@', 'i', 'd'])

/-- The index-column test of `discover_mappings` (rowmerge.py line 30):
`re.match(r"\w+\.@?id$", col.strip()) is not None`. -/
def isIndexCol (s : String) : Bool := isIndexChars (pyStrip s.data)

/-- Positions of the dots in a character list, in increasing order. -/
def dotIdxs (cs : List Char) : List Nat :=
  (List.range cs.length).filter (fun i => cs.getD i ' ' == '.')

/-- Python `col.rfind(".", 0, col.rfind("."))` (rowmerge.py line 36): the
position of the second-to-last dot, or `-1` when there are fewer than two
dots (when `col.rfind(".")` is `-1` the outer search runs over
`col[0:-1]`, which also contains no dot, so the result is `-1` as well). -/
def offsetOf (cs : List Char) : Int :=
  match (dotIdxs cs).dropLast.getLast? with
  | some i => (i : Int)
  | none => -1

/-- Python `col[offset+1:]` (rowmerge.py line 38): everything after the
second-to-last dot, or the whole string when `offsetOf` is `-1`. -/
def suffixOf (cs : List Char) : List Char := cs.drop (offsetOf cs + 1).toNat

/-- The scan of rowmerge.py lines 33-44: walk the columns in order carrying
the set of still-unclaimed index columns; emit a mapping whenever the
second-to-last-dot offset is positive and the suffix is an unclaimed index
column, removing that index column from candidacy. -/
def discoverLoop : List String → List String → List (String × String)
  | [], _ => []
  | col :: rest, idxs =>
    let offs := offsetOf col.data
    let suffix := String.mk (suffixOf col.data)
    if 0 < offs ∧ suffix ∈ idxs then
      (col, suffix) :: discoverLoop rest (idxs.erase suffix)
    else
      discoverLoop rest idxs

/-- Embeds `discover_mappings` (rowmerge.py lines 14-44).  The Python `set` of
index columns is modelled by a deduplicated list: membership and removal
agree with set semantics. -/
def discover_mappings (columns : List String) : List (String × String) :=
  discoverLoop columns (columns.filter isIndexCol).dedup

/-- A pandas cell: `none` is NaN (the missing marker). -/
abbrev Cell := Option String

/-- A pandas DataFrame: ordered column names and row-major cells.  Every row
of a well-formed table has `cols.length` cells; cell access is total via
`List.getD` with the missing marker as default. -/
structure Table where
  cols : List String
  rows : List (List Cell)
deriving DecidableEq, Repr

/-- One logger call of rowmerge.py, kept structurally: the overlap warning
(line 75), the join info message (line 80), and the no-mappings warning of
`merge_rows` (line 101). -/
inductive LogMsg where
  | warnOverlap (idCol : String) (overlap : List String)
  | infoJoin (idCol refCol : String)
  | warnNoMappings
deriving DecidableEq, Repr

/-- A row survives `df.dropna(how='all')` when some cell is non-missing. -/
def rowNonEmpty (r : List Cell) : Bool := r.any (fun c => c.isSome)

/-- Embeds `df.dropna(how='all')` (rowmerge.py line 94): drop rows whose cells are
all missing.  A row of a zero-column table is dropped (pandas drops rows
with a zero count of non-missing values). -/
def dropEmptyRows (t : Table) : Table :=
  { cols := t.cols, rows := t.rows.filter rowNonEmpty }

/-- Rows whose cell at column position `i` is non-missing (`b = true`,
pandas `df[mask]`) or missing (`b = false`, pandas `df.drop(index=...)`),
in order. -/
def filterByMask (rows : List (List Cell)) (i : Nat) (b : Bool) : List (List Cell) :=
  rows.filter (fun r => (r.getD i none).isSome == b)

/-- Column positions that survive `df.dropna(axis='columns', how='all')`:
those where some row is non-missing.  In a zero-row table every column is
dropped (pandas drops columns with a zero count of non-missing values). -/
def keepIdxs (t : Table) : List Nat :=
  (List.range t.cols.length).filter (fun i => t.rows.any (fun r => (r.getD i none).isSome))

/-- Embeds `df.dropna(axis='columns', how='all')` (rowmerge.py lines 69-70). -/
def dropAllNaNCols (t : Table) : Table :=
  { cols := (keepIdxs t).map (fun i => t.cols.getD i ""),
    rows := t.rows.map (fun r => (keepIdxs t).map (fun i => r.getD i none)) }

/-- The joinable partition of one `do_joins` iteration after column
narrowing: rows with a non-missing cell in column position `i`, with
all-missing columns dropped (rowmerge.py lines 56-57 and 69). -/
def joinablePart (t : Table) (i : Nat) : Table :=
  dropAllNaNCols { cols := t.cols, rows := filterByMask t.rows i true }

/-- The remainder partition of one `do_joins` iteration after column
narrowing: rows with a missing cell in column position `i`, with
all-missing columns dropped (rowmerge.py lines 65 and 70). -/
def remainderPart (t : Table) (i : Nat) : Table :=
  dropAllNaNCols { cols := t.cols, rows := filterByMask t.rows i false }

/-- The column names shared by the two narrowed partitions (rowmerge.py
line 73).  Python computes a set intersection; the list order here follows
the joinable partition. -/
def overlapCols (t : Table) (i : Nat) : List String :=
  (joinablePart t i).cols.filter (fun c => (remainderPart t i).cols.contains c)

/-- A run of missing cells, padding the side of an outer join that
contributes no data to a row. -/
def padRow (n : Nat) : List Cell := List.replicate n none

/-- The join-key test of `pd.merge(..., left_on=ref_col, right_on=id_col)`:
the left row's cell at `iRef` equals the right row's cell at `jId`.
pandas also matches missing keys with each other, which `Option` equality
reproduces (the case never fires here: every right-side key is
non-missing by construction of the joinable partition). -/
def keyMatch (iRef jId : Nat) (r m : List Cell) : Bool :=
  r.getD iRef none == m.getD jId none

/-- Embeds `pd.merge(R, J, left_on, right_on, how='outer')` (rowmerge.py line 81)
for frames with disjoint column names: columns of the left frame followed by
columns of the right frame; each left row expanded by its key matches (or
padded on the right when unmatched), followed by the unmatched right rows
padded on the left. -/
def outerMerge (R J : Table) (iRef jId : Nat) : Table :=
  { cols := R.cols ++ J.cols,
    rows :=
      (R.rows.flatMap (fun r =>
        let ms := (J.rows.filter (fun m => keyMatch iRef jId r m)).map (fun m => r ++ m)
        if ms.isEmpty then [r ++ padRow J.cols.length] else ms))
      ++ ((J.rows.filter (fun m => !(R.rows.any (fun r => keyMatch iRef jId r m)))).map
            (fun m => padRow R.cols.length ++ m)) }

/-- One iteration of the `do_joins` loop (rowmerge.py lines 54-81) for the
mapping `(refCol, idCol)`.  `Except.error` models the pandas `KeyError`
raised by `df.loc[:, id_col]` when the id column is absent and by
`pd.merge` when a merge key is absent from its frame after narrowing. -/
def joinStep (t : Table) (refCol idCol : String) : Except String (Table × List LogMsg) :=
  match t.cols.findIdx? (fun c => c == idCol) with
  | none => .error "KeyError: id column not found"
  | some i =>
    if (filterByMask t.rows i true).isEmpty then .ok (t, [])
    else
      if (overlapCols t i).isEmpty then
        match (remainderPart t i).cols.findIdx? (fun c => c == refCol),
              (joinablePart t i).cols.findIdx? (fun c => c == idCol) with
        | some iRef, some jId =>
          .ok (outerMerge (remainderPart t i) (joinablePart t i) iRef jId,
               [LogMsg.infoJoin idCol refCol])
        | _, _ => .error "KeyError: merge key not found"
      else .ok (t, [LogMsg.warnOverlap idCol (overlapCols t i)])

/-- The `do_joins` loop threading the working table and accumulating log
messages across iterations. -/
def doJoinsLoop : Table → List LogMsg → List (String × String) → Except String (Table × List LogMsg)
  | t, log, [] => .ok (t, log)
  | t, log, (refCol, idCol) :: rest =>
    match joinStep t refCol idCol with
    | .error e => .error e
    | .ok (t2, l2) => doJoinsLoop t2 (log ++ l2) rest

/-- Embeds `do_joins` (rowmerge.py lines 47-82). -/
def do_joins (t : Table) (ms : List (String × String)) : Except String (Table × List LogMsg) :=
  doJoinsLoop t [] ms

/-- Cell of row `r` at the first column named `name`, the missing marker
when the label is absent (the absent case is unreachable where this is
used: `merge_rows` reorders only after re-inserting every absent input
column). -/
def cellByName (cols : List String) (r : List Cell) (name : String) : Cell :=
  match cols.findIdx? (fun c => c == name) with
  | some i => r.getD i none
  | none => none

/-- The re-insertion loop of rowmerge.py lines 108-109: every input column
name absent from the working table is inserted at position 0 with every
cell missing.  Python iterates a set difference in unspecified order; a
deterministic order is used, erased by the final reorder. -/
def insertMissingCols (orig : List String) (t : Table) : Table :=
  let missing := orig.dedup.filter (fun c => !(t.cols.contains c))
  { cols := missing ++ t.cols,
    rows := t.rows.map (fun r => padRow missing.length ++ r) }

/-- Embeds `df_out[df_in.columns]` (rowmerge.py line 113): select columns by name
in the given order. -/
def selectCols (t : Table) (names : List String) : Table :=
  { cols := names,
    rows := t.rows.map (fun r => names.map (fun n => cellByName t.cols r n)) }

/-- Restoration glue of rowmerge.py lines 107-113: re-insert dropped input
columns, then reorder to the input layout. -/
def restoreCols (orig : List String) (t : Table) : Table :=
  selectCols (insertMissingCols orig t) orig

/-- Embeds `merge_rows` (rowmerge.py lines 85-114). -/
def merge_rows (t : Table) : Except String (Table × List LogMsg) :=
  let t1 := dropEmptyRows t
  if t1.rows.isEmpty then .ok (t1, [])
  else
    let maps := discover_mappings t1.cols
    if maps.isEmpty then .ok (t1, [LogMsg.warnNoMappings])
    else
      match do_joins t1 maps with
      | .error e => .error e
      | .ok (t2, log) => .ok (restoreCols t.cols t2, log)

/-- The referencing test of one scan step against a fixed index column:
positive second-to-last-dot offset and suffix equal to that index column. -/
def matchesIdx (c idx : String) : Bool :=
  decide (0 < offsetOf c.data) && (String.mk (suffixOf c.data) == idx)

/-- Claim C5's classification pattern as the spec words it: the raw column
name, with no stripping, matches "one or more word characters, a literal
dot, then `id` or `@id`, end of string". -/
def specIndexPattern (s : String) : Bool := isIndexChars s.data

/-- Unfolding of the scan on a non-empty column list. -/
theorem discoverLoop_cons (col : String) (rest idxs : List String) :
    discoverLoop (col :: rest) idxs =
      if 0 < offsetOf col.data ∧ String.mk (suffixOf col.data) ∈ idxs then
        (col, String.mk (suffixOf col.data)) ::
          discoverLoop rest (idxs.erase (String.mk (suffixOf col.data)))
      else discoverLoop rest idxs := rfl

/-- With no unclaimed index columns the scan emits nothing. -/
theorem discoverLoop_nil_idxs (cols : List String) : discoverLoop cols [] = [] := by
  induction cols with
  | nil => rfl
  | cons col rest ih => rw [discoverLoop_cons, if_neg (by simp), ih]

/-- Every emitted mapping has an unclaimed index column as target, a
positive second-to-last-dot offset on its referencing column, the target
equal to that column's suffix, and the referencing column in the input. -/
theorem mem_discoverLoop (cols idxs : List String) (r i : String)
    (h : (r, i) ∈ discoverLoop cols idxs) :
    i ∈ idxs ∧ 0 < offsetOf r.data ∧ String.mk (suffixOf r.data) = i ∧ r ∈ cols := by
  induction cols generalizing idxs with
  | nil => simp [discoverLoop] at h
  | cons col rest ih =>
    rw [discoverLoop_cons] at h
    by_cases hc : 0 < offsetOf col.data ∧ String.mk (suffixOf col.data) ∈ idxs
    · rw [if_pos hc] at h
      rcases List.mem_cons.mp h with heq | hmem
      · have hr : r = col := congrArg Prod.fst heq
        have hi : i = String.mk (suffixOf col.data) := congrArg Prod.snd heq
        subst hr; subst hi
        exact ⟨hc.2, hc.1, rfl, List.mem_cons_self _ _⟩
      · obtain ⟨h1, h2, h3, h4⟩ := ih _ hmem
        exact ⟨List.mem_of_mem_erase h1, h2, h3, List.mem_cons_of_mem _ h4⟩
    · rw [if_neg hc] at h
      obtain ⟨h1, h2, h3, h4⟩ := ih _ h
      exact ⟨h1, h2, h3, List.mem_cons_of_mem _ h4⟩

/-- With a duplicate-free set of unclaimed index columns, no index column is
the target of two emitted mappings. -/
theorem discoverLoop_snd_nodup (cols : List String) :
    ∀ idxs : List String, idxs.Nodup → ((discoverLoop cols idxs).map Prod.snd).Nodup := by
  induction cols with
  | nil => intro idxs _; simp [discoverLoop]
  | cons col rest ih =>
    intro idxs hn
    rw [discoverLoop_cons]
    by_cases hc : 0 < offsetOf col.data ∧ String.mk (suffixOf col.data) ∈ idxs
    · rw [if_pos hc]
      simp only [List.map_cons, List.nodup_cons]
      refine ⟨?_, ih _ (hn.erase _)⟩
      intro hmem
      obtain ⟨⟨r', i'⟩, hmem', hsnd⟩ := List.mem_map.mp hmem
      have h1 := (mem_discoverLoop _ _ _ _ hmem').1
      have hsnd' : i' = String.mk (suffixOf col.data) := hsnd
      rw [hsnd'] at h1
      exact ((hn.mem_erase_iff).mp h1).1 rfl
    · rw [if_neg hc]
      exact ih _ hn

/-- With a duplicate-free set of unclaimed index columns, the referencing
column of every emitted mapping is the first input column matching its
target. -/
theorem discoverLoop_first_match (cols : List String) :
    ∀ idxs : List String, idxs.Nodup → ∀ r i : String, (r, i) ∈ discoverLoop cols idxs →
      cols.find? (fun c => matchesIdx c i) = some r := by
  induction cols with
  | nil => intro idxs _ r i h; simp [discoverLoop] at h
  | cons col rest ih =>
    intro idxs hn r i h
    rw [discoverLoop_cons] at h
    by_cases hc : 0 < offsetOf col.data ∧ String.mk (suffixOf col.data) ∈ idxs
    · rw [if_pos hc] at h
      rcases List.mem_cons.mp h with heq | hmem
      · have hr : r = col := congrArg Prod.fst heq
        have hi : i = String.mk (suffixOf col.data) := congrArg Prod.snd heq
        subst hr; subst hi
        rw [List.find?_cons_of_pos]
        simp [matchesIdx, hc.1]
      · have h1 := (mem_discoverLoop _ _ _ _ hmem).1
        have hne : i ≠ String.mk (suffixOf col.data) := ((hn.mem_erase_iff).mp h1).1
        have hcol : matchesIdx col i = false := by
          unfold matchesIdx
          have hb : (String.mk (suffixOf col.data) == i) = false := by
            rw [beq_eq_false_iff_ne]
            exact fun he => hne he.symm
          simp [hb]
        rw [List.find?_cons_of_neg _ (by simp [hcol])]
        exact ih _ (hn.erase _) _ _ hmem
    · rw [if_neg hc] at h
      have h1 := (mem_discoverLoop _ _ _ _ h).1
      have hcol : matchesIdx col i = false := by
        unfold matchesIdx
        by_cases hoff : 0 < offsetOf col.data
        · have hb : (String.mk (suffixOf col.data) == i) = false := by
            rw [beq_eq_false_iff_ne]
            intro he
            exact hc ⟨hoff, he ▸ h1⟩
          simp [hb]
        · simp [hoff]
      rw [List.find?_cons_of_neg _ (by simp [hcol])]
      exact ih _ hn _ _ h

/-- The referencing columns of the scan result form a subsequence of the
input column list. -/
theorem discoverLoop_fst_sublist (cols : List String) :
    ∀ idxs : List String, List.Sublist ((discoverLoop cols idxs).map Prod.fst) cols := by
  induction cols with
  | nil => intro idxs; simp [discoverLoop]
  | cons col rest ih =>
    intro idxs
    rw [discoverLoop_cons]
    by_cases hc : 0 < offsetOf col.data ∧ String.mk (suffixOf col.data) ∈ idxs
    · rw [if_pos hc]
      simpa only [List.map_cons] using List.Sublist.cons₂ col (ih _)
    · rw [if_neg hc]
      exact List.Sublist.cons col (ih _)

/-- Characters of the stripped string are characters of the original. -/
theorem mem_pyStrip (cs : List Char) (c : Char) (h : c ∈ pyStrip cs) : c ∈ cs := by
  unfold pyStrip at h
  rw [List.mem_reverse] at h
  have h2 := (List.dropWhile_sublist _).subset h
  rw [List.mem_reverse] at h2
  exact (List.dropWhile_sublist _).subset h2

/-- An index column contains a dot and a word character. -/
theorem isIndexCol_has_dot_and_word (s : String) (h : isIndexCol s = true) :
    '.' ∈ s.data ∧ ∃ c ∈ s.data, isWordChar c = true := by
  unfold isIndexCol isIndexChars at h
  simp only [Bool.and_eq_true, Bool.or_eq_true, beq_iff_eq, Bool.not_eq_true'] at h
  obtain ⟨hw, hrest⟩ := h
  constructor
  · have hdot : '.' ∈ (pyStrip s.data).drop ((pyStrip s.data).takeWhile isWordChar).length := by
      rcases hrest with hr | hr <;> rw [hr] <;> simp
    exact mem_pyStrip _ _ ((List.drop_sublist _ _).subset hdot)
  · cases hww : (pyStrip s.data).takeWhile isWordChar with
    | nil => rw [hww] at hw; simp at hw
    | cons c cw =>
      refine ⟨c, ?_, ?_⟩
      · exact mem_pyStrip _ _ ((List.takeWhile_sublist _).subset (hww ▸ List.mem_cons_self c cw))
      · exact List.mem_takeWhile_imp (hww ▸ List.mem_cons_self c cw)

/-- A positive second-to-last-dot offset names a dot position strictly
inside the character list. -/
theorem offsetOf_eq_of_getLast? (cs : List Char) (k : Nat)
    (hl : (dotIdxs cs).dropLast.getLast? = some k) : offsetOf cs = (k : Int) := by
  unfold offsetOf
  rw [hl]

theorem offsetOf_eq_neg_one (cs : List Char)
    (hl : (dotIdxs cs).dropLast.getLast? = none) : offsetOf cs = -1 := by
  unfold offsetOf
  rw [hl]

theorem offsetOf_pos_spec (cs : List Char) (h : 0 < offsetOf cs) :
    ∃ k : Nat, offsetOf cs = (k : Int) ∧ 0 < k ∧ k < cs.length ∧ cs.getD k ' ' = '.' := by
  cases hl : (dotIdxs cs).dropLast.getLast? with
  | none => rw [offsetOf_eq_neg_one cs hl] at h; norm_num at h
  | some k =>
    rw [offsetOf_eq_of_getLast? cs k hl] at h
    have hk : k ∈ dotIdxs cs :=
      (List.dropLast_sublist _).subset (List.mem_of_mem_getLast? hl)
    have hk2 := List.mem_filter.mp hk
    refine ⟨k, offsetOf_eq_of_getLast? cs k hl, ?_, List.mem_range.mp hk2.1, ?_⟩
    · exact_mod_cast h
    · simpa using hk2.2

/-- A referencing column with positive offset splits as a non-trivial
prefix, a dot, and its suffix. -/
theorem suffix_decomp (cs : List Char) (h : 0 < offsetOf cs) :
    ∃ k : Nat, 0 < k ∧ k < cs.length ∧ cs = cs.take k ++ '.' :: suffixOf cs := by
  obtain ⟨k, hoff, hkpos, hklt, hdot⟩ := offsetOf_pos_spec cs h
  have harg : (((k : Nat) : Int) + 1).toNat = k + 1 := by omega
  have hsuff : suffixOf cs = cs.drop (k + 1) := by
    unfold suffixOf
    rw [hoff, harg]
  refine ⟨k, hkpos, hklt, ?_⟩
  rw [hsuff]
  conv_lhs => rw [← List.take_append_drop k cs]
  rw [List.drop_eq_getElem_cons hklt]
  rw [List.getD_eq_getElem cs ' ' hklt] at hdot
  rw [hdot]

/-- Strings append through their character lists. -/
theorem string_mk_append (a b : List Char) : String.mk a ++ String.mk b = String.mk (a ++ b) :=
  rfl

/-- C4: for every input sequence of column names, each index column appears
as the join target (second element) of at most one mapping returned by
`discover_mappings`, the referencing column that claims it is the first
matching column in input order, and on
`["foo.id", "bar.foo.id", "baz.foo.id"]` the result is exactly
`[("bar.foo.id", "foo.id")]`. -/
theorem c4_index_claimed_once :
    (∀ cols : List String, ((discover_mappings cols).map Prod.snd).Nodup) ∧
    (∀ (cols : List String) (r i : String), (r, i) ∈ discover_mappings cols →
      cols.find? (fun c => matchesIdx c i) = some r) ∧
    discover_mappings ["foo.id", "bar.foo.id", "baz.foo.id"] = [("bar.foo.id", "foo.id")] :=
  ⟨fun cols => discoverLoop_snd_nodup _ _ (List.nodup_dedup _),
   fun cols r i h => discoverLoop_first_match _ _ (List.nodup_dedup _) r i h,
   by decide⟩

/-- Witness for C4 at a concrete input: the membership hypothesis is
discharged on `["foo.id", "bar.foo.id", "baz.foo.id"]`. -/
theorem c4_index_claimed_once_witness :
    ["foo.id", "bar.foo.id", "baz.foo.id"].find? (fun c => matchesIdx c "foo.id") =
      some "bar.foo.id" :=
  c4_index_claimed_once.2.1 ["foo.id", "bar.foo.id", "baz.foo.id"] "bar.foo.id" "foo.id"
    (by decide)

/-- C6: the mapping list returned by `discover_mappings` is ordered by the
position of each mapping's referencing column in the input: the referencing
columns form a subsequence of the input column list. -/
theorem c6_output_order (cols : List String) :
    List.Sublist ((discover_mappings cols).map Prod.fst) cols :=
  discoverLoop_fst_sublist cols _

/-- C7: when no column name matches the index pattern the result is empty
(in particular on `[]`, `["."]` and `["a.b.c"]`), and a name without a dot
or consisting only of dots never appears in a mapping on either side. -/
theorem c7_no_pattern_no_mappings :
    (∀ cols : List String, (∀ c ∈ cols, isIndexCol c = false) → discover_mappings cols = []) ∧
    discover_mappings [] = [] ∧ discover_mappings ["."] = [] ∧
    discover_mappings ["a.b.c"] = [] ∧
    (∀ (cols : List String) (r i : String), (r, i) ∈ discover_mappings cols →
      ('.' ∈ r.data ∧ ¬∀ c ∈ r.data, c = '.') ∧ ('.' ∈ i.data ∧ ¬∀ c ∈ i.data, c = '.')) := by
  refine ⟨?_, by decide, by decide, by decide, ?_⟩
  · intro cols hall
    unfold discover_mappings
    have hf : cols.filter isIndexCol = [] :=
      List.filter_eq_nil_iff.mpr (fun a ha => by simp [hall a ha])
    rw [hf]
    exact discoverLoop_nil_idxs cols
  · intro cols r i h
    obtain ⟨hidx, hoff, hsuf, _⟩ := mem_discoverLoop _ _ _ _ h
    have hisidx : isIndexCol i = true :=
      (List.mem_filter.mp (List.mem_dedup.mp hidx)).2
    obtain ⟨hdot_i, c, hc_mem, hc_word⟩ := isIndexCol_has_dot_and_word i hisidx
    have hidata : i.data = suffixOf r.data := by rw [← hsuf]
    have hcr : c ∈ r.data := by
      rw [hidata] at hc_mem
      exact (List.drop_sublist _ _).subset hc_mem
    have hcnotdot : c ≠ '.' := by
      intro he
      rw [he] at hc_word
      exact absurd hc_word (by decide)
    obtain ⟨k, _, _, hklt, hkdot⟩ := offsetOf_pos_spec r.data hoff
    refine ⟨⟨?_, ?_⟩, hdot_i, ?_⟩
    · rw [List.getD_eq_getElem r.data ' ' hklt] at hkdot
      exact hkdot ▸ List.getElem_mem hklt
    · intro hall
      exact hcnotdot (hall c hcr)
    · intro hall
      exact hcnotdot (hall c hc_mem)

/-- Witness for C7 at concrete inputs: the hypotheses are discharged on
`["x", "y"]` and on `["foo.id", "bar.foo.id"]`. -/
theorem c7_no_pattern_no_mappings_witness :
    discover_mappings ["x", "y"] = [] ∧
    ('.' ∈ "bar.foo.id".data ∧ ¬∀ c ∈ "bar.foo.id".data, c = '.') :=
  ⟨c7_no_pattern_no_mappings.1 ["x", "y"] (by decide),
   (c7_no_pattern_no_mappings.2.2.2.2 ["foo.id", "bar.foo.id"] "bar.foo.id" "foo.id"
     (by decide)).1⟩

/-- C10: every mapping returned by `discover_mappings` relates two distinct
columns: the referencing column is a non-empty prefix, then a dot, then the
index column, so it is strictly longer than the index column. -/
theorem c10_no_self_mapping :
    ∀ (cols : List String) (r i : String), (r, i) ∈ discover_mappings cols →
      ∃ p : String, p ≠ "" ∧ r = p ++ "." ++ i ∧ i.length < r.length ∧ r ≠ i := by
  intro cols r i h
  obtain ⟨_, hoff, hsuf, _⟩ := mem_discoverLoop _ _ _ _ h
  obtain ⟨k, hkpos, hklt, hdecomp⟩ := suffix_decomp r.data hoff
  have hidata : i.data = suffixOf r.data := by rw [← hsuf]
  have hdec2 : r.data = r.data.take k ++ '.' :: i.data := by
    rw [hidata]
    exact hdecomp
  have hlen : r.data.length = (r.data.take k).length + (i.data.length + 1) := by
    conv_lhs => rw [hdec2]
    simp [List.length_append]
  have htk : (r.data.take k).length = k := by
    rw [List.length_take]
    omega
  refine ⟨String.mk (r.data.take k), ?_, ?_, ?_, ?_⟩
  · intro hnil
    have hmt : r.data.take k = [] := congrArg String.data hnil
    rcases List.take_eq_nil_iff.mp hmt with h0 | h0
    · omega
    · rw [h0] at hklt
      simp at hklt
  · apply String.ext
    show r.data = (r.data.take k ++ ['.']) ++ i.data
    rw [List.append_assoc]
    exact hdec2
  · show i.data.length < r.data.length
    omega
  · intro he
    have : i.data.length = r.data.length := by rw [he]
    omega

/-- Witness for C10 at a concrete input: the membership hypothesis is
discharged on `["foo.id", "bar.foo.id"]`. -/
theorem c10_no_self_mapping_witness :
    ∃ p : String, p ≠ "" ∧ "bar.foo.id" = p ++ "." ++ "foo.id" ∧
      ("foo.id" : String).length < ("bar.foo.id" : String).length ∧
      ("bar.foo.id" : String) ≠ "foo.id" :=
  c10_no_self_mapping ["foo.id", "bar.foo.id"] "bar.foo.id" "foo.id" (by decide)

/-- C5 counterexample: the code strips whitespace before matching, so the
column name "foo.id " (trailing space) is classified as an index column and
is the join target of a discovered mapping, while it does not match the
claimed pattern (word characters, dot, id or @id, end of string). -/
theorem c5_index_pattern_counterexample :
    isIndexCol "foo.id " = true ∧ specIndexPattern "foo.id " = false ∧
    discover_mappings ["foo.id ", "x.foo.id "] = [("x.foo.id ", "foo.id ")] :=
  ⟨by decide, by decide, by decide⟩

/-- C5 (amended): a column name is classified by `discover_mappings` as an
index column iff, after stripping leading and trailing whitespace, it
matches the pattern "one or more word characters, a literal dot, then id or
@id, end of string"; thus foo.id and foo.@id qualify while foo.bar.id and
foo.id.bar do not. -/
theorem c5_index_pattern_amended :
    (∀ s : String, isIndexCol s = specIndexPattern (String.mk (pyStrip s.data))) ∧
    isIndexCol "foo.id" = true ∧ isIndexCol "foo.@id" = true ∧
    isIndexCol "foo.bar.id" = false ∧ isIndexCol "foo.id.bar" = false :=
  ⟨fun _ => rfl, by decide, by decide, by decide, by decide⟩

/-- The accumulated log is a prefix threaded unchanged through the join
loop. -/
theorem doJoinsLoop_log_accum (ms : List (String × String)) :
    ∀ (t : Table) (l : List LogMsg),
      doJoinsLoop t l ms = (doJoinsLoop t [] ms).map (fun p => (p.1, l ++ p.2)) := by
  induction ms with
  | nil => intro t l; simp [doJoinsLoop, Except.map]
  | cons m rest ih =>
    intro t l
    obtain ⟨refCol, idCol⟩ := m
    simp only [doJoinsLoop]
    cases hj : joinStep t refCol idCol with
    | error e => simp [Except.map]
    | ok p =>
      obtain ⟨t2, l2⟩ := p
      simp only
      rw [ih t2 (l ++ l2), ih t2 ([] ++ l2)]
      cases doJoinsLoop t2 [] rest with
      | error e => rfl
      | ok q => simp [Except.map, List.append_assoc]

/-- A matched pair of rows appears concatenated in the outer-merge result. -/
theorem outerMerge_mem_matched (R J : Table) (iRef jId : Nat) (r m : List Cell)
    (hr : r ∈ R.rows) (hm : m ∈ J.rows) (hk : keyMatch iRef jId r m = true) :
    r ++ m ∈ (outerMerge R J iRef jId).rows := by
  unfold outerMerge
  apply List.mem_append_left
  rw [List.mem_flatMap]
  refine ⟨r, hr, ?_⟩
  have hmem : r ++ m ∈ (J.rows.filter (fun m2 => keyMatch iRef jId r m2)).map
      (fun m2 => r ++ m2) :=
    List.mem_map.mpr ⟨m, List.mem_filter.mpr ⟨hm, hk⟩, rfl⟩
  simp only
  rw [if_neg]
  · exact hmem
  · intro hemp
    rw [List.isEmpty_iff] at hemp
    rw [hemp] at hmem
    cases hmem

/-- A left row with no key match appears right-padded in the outer-merge
result. -/
theorem outerMerge_mem_left_unmatched (R J : Table) (iRef jId : Nat) (r : List Cell)
    (hr : r ∈ R.rows) (hnone : ∀ m ∈ J.rows, keyMatch iRef jId r m = false) :
    r ++ padRow J.cols.length ∈ (outerMerge R J iRef jId).rows := by
  unfold outerMerge
  apply List.mem_append_left
  rw [List.mem_flatMap]
  refine ⟨r, hr, ?_⟩
  have hfil : J.rows.filter (fun m2 => keyMatch iRef jId r m2) = [] :=
    List.filter_eq_nil_iff.mpr (fun m hm => by rw [hnone m hm]; exact Bool.false_ne_true)
  simp only
  rw [hfil]
  simp

/-- A right row with no key match appears left-padded in the outer-merge
result. -/
theorem outerMerge_mem_right_unmatched (R J : Table) (iRef jId : Nat) (m : List Cell)
    (hm : m ∈ J.rows) (hnone : ∀ r ∈ R.rows, keyMatch iRef jId r m = false) :
    padRow R.cols.length ++ m ∈ (outerMerge R J iRef jId).rows := by
  unfold outerMerge
  apply List.mem_append_right
  apply List.mem_map.mpr
  refine ⟨m, List.mem_filter.mpr ⟨hm, ?_⟩, rfl⟩
  rw [Bool.not_eq_true']
  exact List.any_eq_false.mpr (fun x hx => by rw [hnone x hx]; exact Bool.false_ne_true)

/-- Evaluation of one join iteration on the overlap-skip path (rowmerge.py
lines 74-77): the working table is returned unchanged with the warning. -/
theorem joinStep_overlap (t : Table) (refCol idCol : String) (i : Nat)
    (hID : t.cols.findIdx? (fun c => c == idCol) = some i)
    (hJoin : filterByMask t.rows i true ≠ [])
    (hOv : overlapCols t i ≠ []) :
    joinStep t refCol idCol = .ok (t, [LogMsg.warnOverlap idCol (overlapCols t i)]) := by
  have h1 : (filterByMask t.rows i true).isEmpty = false := by
    cases hfm : filterByMask t.rows i true with
    | nil => exact absurd hfm hJoin
    | cons a l => rfl
  have h2 : (overlapCols t i).isEmpty = false := by
    cases hfm : overlapCols t i with
    | nil => exact absurd hfm hOv
    | cons a l => rfl
  simp only [joinStep, hID]
  rw [if_neg (by rw [h1]; exact Bool.false_ne_true),
    if_neg (by rw [h2]; exact Bool.false_ne_true)]

/-- Evaluation of one join iteration on the merge path (rowmerge.py lines
79-81): non-empty joinable partition, no overlap, both merge keys present
after narrowing. -/
theorem joinStep_join (t : Table) (refCol idCol : String) (i iRef jId : Nat)
    (hID : t.cols.findIdx? (fun c => c == idCol) = some i)
    (hJoin : filterByMask t.rows i true ≠ [])
    (hOv : overlapCols t i = [])
    (hRef : (remainderPart t i).cols.findIdx? (fun c => c == refCol) = some iRef)
    (hId2 : (joinablePart t i).cols.findIdx? (fun c => c == idCol) = some jId) :
    joinStep t refCol idCol =
      .ok (outerMerge (remainderPart t i) (joinablePart t i) iRef jId,
           [LogMsg.infoJoin idCol refCol]) := by
  have h1 : (filterByMask t.rows i true).isEmpty = false := by
    cases hfm : filterByMask t.rows i true with
    | nil => exact absurd hfm hJoin
    | cons a l => rfl
  simp only [joinStep, hID]
  rw [if_neg (by rw [h1]; exact Bool.false_ne_true), if_pos (by rw [hOv]; rfl), hRef, hId2]

/-- C1: when the joinable partition is non-empty and the narrowed partitions
share a column name, the join is skipped: a warning carrying the overlapping
column names is emitted and the working table passed to the next mapping
iteration is exactly the table before partitioning. -/
theorem c1_overlap_skip (t : Table) (refCol idCol : String) (i : Nat)
    (rest : List (String × String))
    (hID : t.cols.findIdx? (fun c => c == idCol) = some i)
    (hJoin : filterByMask t.rows i true ≠ [])
    (hOv : overlapCols t i ≠ []) :
    joinStep t refCol idCol = .ok (t, [LogMsg.warnOverlap idCol (overlapCols t i)]) ∧
    do_joins t ((refCol, idCol) :: rest) =
      (do_joins t rest).map
        (fun p => (p.1, LogMsg.warnOverlap idCol (overlapCols t i) :: p.2)) := by
  have hstep := joinStep_overlap t refCol idCol i hID hJoin hOv
  refine ⟨hstep, ?_⟩
  unfold do_joins
  simp only [doJoinsLoop, hstep]
  rw [doJoinsLoop_log_accum rest t ([] ++ [LogMsg.warnOverlap idCol (overlapCols t i)])]
  rfl

/-- C3: for a join that is actually performed, every matched
remainder/joinable row pair appears merged into one row carrying both
sides' columns, every unmatched remainder row appears padded with missing
values on the joinable side, and every unmatched joinable row appears
padded with missing values on the remainder side; several referencing rows
matching one index row each produce their own merged row. -/
theorem c3_outer_join_complete (t : Table) (refCol idCol : String) (i iRef jId : Nat)
    (hID : t.cols.findIdx? (fun c => c == idCol) = some i)
    (hJoin : filterByMask t.rows i true ≠ [])
    (hOv : overlapCols t i = [])
    (hRef : (remainderPart t i).cols.findIdx? (fun c => c == refCol) = some iRef)
    (hId2 : (joinablePart t i).cols.findIdx? (fun c => c == idCol) = some jId) :
    ∃ M : Table,
      joinStep t refCol idCol = .ok (M, [LogMsg.infoJoin idCol refCol]) ∧
      M.cols = (remainderPart t i).cols ++ (joinablePart t i).cols ∧
      (∀ r ∈ (remainderPart t i).rows, ∀ m ∈ (joinablePart t i).rows,
        keyMatch iRef jId r m = true → r ++ m ∈ M.rows) ∧
      (∀ r ∈ (remainderPart t i).rows,
        (∀ m ∈ (joinablePart t i).rows, keyMatch iRef jId r m = false) →
        r ++ padRow (joinablePart t i).cols.length ∈ M.rows) ∧
      (∀ m ∈ (joinablePart t i).rows,
        (∀ r ∈ (remainderPart t i).rows, keyMatch iRef jId r m = false) →
        padRow (remainderPart t i).cols.length ++ m ∈ M.rows) :=
  ⟨outerMerge (remainderPart t i) (joinablePart t i) iRef jId,
    joinStep_join t refCol idCol i iRef jId hID hJoin hOv hRef hId2, rfl,
    fun r hr m hm hk => outerMerge_mem_matched _ _ _ _ r m hr hm hk,
    fun r hr hn => outerMerge_mem_left_unmatched _ _ _ _ r hr hn,
    fun m hm hn => outerMerge_mem_right_unmatched _ _ _ _ m hm hn⟩

/-- Witness for C1 at a concrete input: column x holds data in both
partitions when splitting on y.id, so the mapping (x, y.id) is skipped with
a warning and the table is unchanged. -/
theorem c1_overlap_skip_witness :
    joinStep (Table.mk ["x", "y.id"] [[some "1", some "k"], [some "2", none]]) "x" "y.id" =
      .ok (Table.mk ["x", "y.id"] [[some "1", some "k"], [some "2", none]],
           [LogMsg.warnOverlap "y.id"
             (overlapCols (Table.mk ["x", "y.id"] [[some "1", some "k"], [some "2", none]]) 1)]) ∧
    do_joins (Table.mk ["x", "y.id"] [[some "1", some "k"], [some "2", none]])
        [("x", "y.id")] =
      (do_joins (Table.mk ["x", "y.id"] [[some "1", some "k"], [some "2", none]]) []).map
        (fun p => (p.1, LogMsg.warnOverlap "y.id"
          (overlapCols (Table.mk ["x", "y.id"] [[some "1", some "k"], [some "2", none]]) 1)
            :: p.2)) :=
  c1_overlap_skip (Table.mk ["x", "y.id"] [[some "1", some "k"], [some "2", none]])
    "x" "y.id" 1 [] (by decide) (by decide) (by decide)

/-- Witness for C3 at a concrete input: a referencing row and an index row
joined on matching key value 1. -/
theorem c3_outer_join_complete_witness :
    ∃ M : Table,
      joinStep (Table.mk ["r", "i"] [[some "1", none], [none, some "1"]]) "r" "i" =
        .ok (M, [LogMsg.infoJoin "i" "r"]) ∧
      M.cols =
        (remainderPart (Table.mk ["r", "i"] [[some "1", none], [none, some "1"]]) 1).cols ++
          (joinablePart (Table.mk ["r", "i"] [[some "1", none], [none, some "1"]]) 1).cols ∧
      (∀ r ∈ (remainderPart (Table.mk ["r", "i"] [[some "1", none], [none, some "1"]]) 1).rows,
        ∀ m ∈ (joinablePart (Table.mk ["r", "i"] [[some "1", none], [none, some "1"]]) 1).rows,
        keyMatch 0 0 r m = true → r ++ m ∈ M.rows) ∧
      (∀ r ∈ (remainderPart (Table.mk ["r", "i"] [[some "1", none], [none, some "1"]]) 1).rows,
        (∀ m ∈ (joinablePart (Table.mk ["r", "i"] [[some "1", none], [none, some "1"]]) 1).rows,
          keyMatch 0 0 r m = false) →
        r ++ padRow (joinablePart (Table.mk ["r", "i"]
          [[some "1", none], [none, some "1"]]) 1).cols.length ∈ M.rows) ∧
      (∀ m ∈ (joinablePart (Table.mk ["r", "i"] [[some "1", none], [none, some "1"]]) 1).rows,
        (∀ r ∈ (remainderPart (Table.mk ["r", "i"] [[some "1", none], [none, some "1"]]) 1).rows,
          keyMatch 0 0 r m = false) →
        padRow (remainderPart (Table.mk ["r", "i"]
          [[some "1", none], [none, some "1"]]) 1).cols.length ++ m ∈ M.rows) :=
  c3_outer_join_complete (Table.mk ["r", "i"] [[some "1", none], [none, some "1"]])
    "r" "i" 1 0 0 (by decide) (by decide) (by decide) (by decide) (by decide)

/-- Evaluation of `merge_rows` when no rows survive the up-front removal of
all-missing rows (rowmerge.py lines 94-97): the empty table is returned
immediately, header intact, with nothing logged. -/
theorem merge_rows_all_empty (t : Table) (h : (dropEmptyRows t).rows = []) :
    merge_rows t = .ok (Table.mk t.cols [], []) := by
  have hie : (dropEmptyRows t).rows.isEmpty = true := by rw [h]; rfl
  have hdrop : dropEmptyRows t = Table.mk t.cols [] := by
    have h2 : t.rows.filter rowNonEmpty = [] := h
    unfold dropEmptyRows
    rw [h2]
  simp only [merge_rows]
  rw [if_pos hie, hdrop]

/-- C8: `merge_rows` first removes the rows whose cells are all missing;
when no rows remain it returns the empty table immediately (header
preserved, no data rows), so an input in which every cell is missing
produces the empty output table. -/
theorem c8_empty_short_circuit :
    (∀ t : Table, (dropEmptyRows t).rows = [] → merge_rows t = .ok (Table.mk t.cols [], [])) ∧
    (∀ t : Table, (∀ r ∈ t.rows, ∀ c ∈ r, c = none) →
      merge_rows t = .ok (Table.mk t.cols [], [])) := by
  refine ⟨merge_rows_all_empty, fun t h => merge_rows_all_empty t ?_⟩
  show t.rows.filter rowNonEmpty = []
  apply List.filter_eq_nil_iff.mpr
  intro r hr hne
  unfold rowNonEmpty at hne
  obtain ⟨c, hc, hcs⟩ := List.any_eq_true.mp hne
  rw [h r hr c hc] at hcs
  cases hcs

/-- Witness for C8 at a concrete input: the one-row all-missing table. -/
theorem c8_empty_short_circuit_witness :
    merge_rows (Table.mk ["a"] [[none]]) = .ok (Table.mk ["a"] [], []) :=
  c8_empty_short_circuit.2 (Table.mk ["a"] [[none]]) (by decide)

/-- C9 counterexample: on the all-missing table with columns `["a"]`,
mapping discovery on its columns yields zero mappings, yet `merge_rows`
returns with an empty log: no warning is logged, against the claim. -/
theorem c9_no_warning_counterexample :
    discover_mappings (Table.mk ["a"] [[(none : Cell)]]).cols = [] ∧
    merge_rows (Table.mk ["a"] [[(none : Cell)]]) = .ok (Table.mk ["a"] [], []) ∧
    ¬∃ (t2 : Table) (log : List LogMsg),
      merge_rows (Table.mk ["a"] [[(none : Cell)]]) = .ok (t2, log) ∧
      LogMsg.warnNoMappings ∈ log := by
  refine ⟨rfl, rfl, ?_⟩
  rintro ⟨t2, log, heq, hmem⟩
  rw [show merge_rows (Table.mk ["a"] [[(none : Cell)]]) = .ok (Table.mk ["a"] [], [])
    from rfl] at heq
  injection heq with h1
  have hlog : log = [] := (congrArg Prod.snd h1).symm
  rw [hlog] at hmem
  cases hmem

/-- C9 (amended): when at least one row survives the up-front removal of
all-missing rows and mapping discovery yields zero mappings, `merge_rows`
logs the no-mappings warning and returns the de-emptied table unchanged;
the join executor is never invoked. -/
theorem c9_no_mappings_passthrough (t : Table)
    (h1 : (dropEmptyRows t).rows ≠ [])
    (h2 : discover_mappings t.cols = []) :
    merge_rows t = .ok (dropEmptyRows t, [LogMsg.warnNoMappings]) := by
  have hie : (dropEmptyRows t).rows.isEmpty = false := by
    cases hfm : (dropEmptyRows t).rows with
    | nil => exact absurd hfm h1
    | cons a l => rfl
  have hmap : discover_mappings (dropEmptyRows t).cols = [] := h2
  simp only [merge_rows]
  rw [if_neg (by rw [hie]; exact Bool.false_ne_true), hmap]
  rfl

/-- Witness for C9 (amended) at a concrete input: one non-missing row, no
identifier columns. -/
theorem c9_no_mappings_passthrough_witness :
    merge_rows (Table.mk ["a"] [[some "v"]]) =
      .ok (Table.mk ["a"] [[some "v"]], [LogMsg.warnNoMappings]) :=
  c9_no_mappings_passthrough (Table.mk ["a"] [[some "v"]]) (by decide) (by decide)

/-- Lookup of a re-inserted column name in a padded row is the missing
marker: the name sits in the inserted block, whose cells are all missing. -/
theorem cellByName_pad (tcols : List String) (r : List Cell) (name : String) :
    ∀ missing : List String, name ∈ missing →
      cellByName (missing ++ tcols) (padRow missing.length ++ r) name = none := by
  intro missing
  induction missing with
  | nil => intro h; cases h
  | cons a ms ih =>
    intro hmem
    have hpad : padRow (a :: ms).length ++ r = none :: (padRow ms.length ++ r) := by
      simp [padRow, List.replicate_succ]
    unfold cellByName
    simp only [List.cons_append, List.findIdx?_cons, List.findIdx?_succ]
    by_cases ha : (a == name) = true
    · rw [if_pos ha, hpad]
      rfl
    · rw [if_neg ha]
      have hmem2 : name ∈ ms := by
        rcases List.mem_cons.mp hmem with he | hm
        · exact absurd (by rw [he]; simp) ha
        · exact hm
      cases hfi : List.findIdx? (fun c => c == name) (ms ++ tcols) with
      | none => rfl
      | some k =>
        rw [hpad]
        show (padRow ms.length ++ r).getD k none = none
        have hres := ih hmem2
        unfold cellByName at hres
        rw [hfi] at hres
        exact hres

/-- Cell of a mapped row at a position inside the source list. -/
theorem getD_map_cell (l : List String) (f : String → Cell) (j : Nat) (hj : j < l.length) :
    (l.map f).getD j none = f (l.getD j "") := by
  rw [List.getD_eq_getElem (l.map f) none (by simpa using hj), List.getElem_map,
    List.getD_eq_getElem l "" hj]

/-- C2: the table returned by `merge_rows` has exactly the input's column
names in the input's order; and any input column name absent from the
working table after the joins is re-inserted by the restoration glue filled
entirely with the missing marker. -/
theorem c2_columns_preserved :
    (∀ (t t2 : Table) (log : List LogMsg), merge_rows t = .ok (t2, log) → t2.cols = t.cols) ∧
    (∀ (orig : List String) (t : Table) (j : Nat), j < orig.length →
      orig.getD j "" ∉ t.cols →
      ∀ r ∈ (restoreCols orig t).rows, r.getD j none = none) := by
  constructor
  · intro t t2 log h
    simp only [merge_rows] at h
    split at h
    · injection h with h1
      have h2 : dropEmptyRows t = t2 := congrArg Prod.fst h1
      rw [← h2]
      rfl
    · split at h
      · injection h with h1
        have h2 : dropEmptyRows t = t2 := congrArg Prod.fst h1
        rw [← h2]
        rfl
      · split at h
        · exact absurd h (by simp)
        · injection h with h1
          have h2 : restoreCols t.cols _ = t2 := congrArg Prod.fst h1
          rw [← h2]
          rfl
  · intro orig t j hj hnot r hr
    simp only [restoreCols, selectCols, insertMissingCols] at hr
    obtain ⟨rr, hrr, hre⟩ := List.mem_map.mp hr
    obtain ⟨r0, _, hrr0⟩ := List.mem_map.mp hrr
    rw [← hre]
    rw [getD_map_cell orig _ j hj]
    rw [← hrr0]
    have hname : orig.getD j "" ∈ orig := by
      rw [List.getD_eq_getElem orig "" hj]
      exact List.getElem_mem hj
    have hcf : (t.cols.contains (orig.getD j "")) = false := by
      by_contra hc
      rw [Bool.not_eq_false] at hc
      exact hnot (List.mem_of_elem_eq_true hc)
    exact cellByName_pad t.cols r0 (orig.getD j "")
      (orig.dedup.filter (fun c => !(t.cols.contains c)))
      (List.mem_filter.mpr ⟨List.mem_dedup.mpr hname, by rw [hcf]; rfl⟩)

/-- Witness for C2 at concrete inputs: `merge_rows` on a one-column table,
and restoration of a dropped column `b`. -/
theorem c2_columns_preserved_witness :
    (Table.mk ["a"] [[some "v"]]).cols = (Table.mk ["a"] [[some "v"]]).cols ∧
    ([(none : Cell), some "v"]).getD 0 none = none :=
  ⟨c2_columns_preserved.1 (Table.mk ["a"] [[some "v"]]) (Table.mk ["a"] [[some "v"]])
      [LogMsg.warnNoMappings] rfl,
   c2_columns_preserved.2 ["b", "a"] (Table.mk ["a"] [[some "v"]]) 0 (by decide) (by decide)
     [none, some "v"] (by decide)⟩
